import Mathlib

/-!
Verification of the Status-Dashboard device-push client
(`src/autoxjs_dashboard.js`) and, where the backend code is not part of the
sources, of components modelled from the specification (Task Store
`mark_fired`, Monthly recurrence skip, Presence Tracker timeout).

The client script is embedded shallowly: its mutable variables
(`last_status`, `last_send_time`) become a `ClientState`, each iteration of
the `while (true)` polling loop consumes an `Env` describing what the
environment returns on that tick (screen state, foreground app, clock,
whether `http.postJson` succeeds), and the loop itself becomes structural
recursion over a list of `Env` ticks.  JavaScript numbers used here are
integral (`Date.now()`, battery percent), so they are embedded as `Int`;
a `null` app name is embedded as the empty string, matching the falsiness
test `if (!app_name)` in the source.  The only exception source modelled is
`http.postJson`, which the source wraps in `try`/`catch`; it is embedded
with `Except`, and the `catch` branches are explicit `match`es.
-/

/-! ## Configuration constants (src/autoxjs_dashboard.js lines 7-12) -/

def API_URL : String := "https://status.wisteriazy.moe/device/set"

def SECRET : String := "erh3PVxATcxS9qHlVZkAXBf_TZ6f-HrcGwNPREOJ-bc"

def ID : String := "phone"

def SHOW_NAME : String := "手机"

def CHECK_INTERVAL : Int := 3000

def HEARTBEAT_INTERVAL : Int := 10000

/-! ## The log function (lines 17-23)

`log(msg)` prints `` `[dashboard] ${msg.replace(SECRET, '[SECRET]')}` ``.
JavaScript `String.prototype.replace` with a *string* pattern replaces only
the first occurrence, so the embedding implements replace-first explicitly
(Lean's `String.replace` would replace every occurrence, which is not what
the source does). -/

/-- JS `String.replace(pat, repl)` on character lists: scan left to right,
splice `repl` in place of the first occurrence of `pat`, leave everything
else unchanged. -/
def replaceFirstAux (pat repl : List Char) : List Char → List Char
  | [] => []
  | c :: rest =>
    if pat.isPrefixOf (c :: rest) then repl ++ (c :: rest).drop pat.length
    else c :: replaceFirstAux pat repl rest

/-- JS `msg.replace(pat, repl)` for a non-empty string pattern `pat`:
replaces the first occurrence of `pat` in `msg`, if any. -/
def replaceFirst (msg pat repl : String) : String :=
  ⟨replaceFirstAux pat.data repl.data msg.data⟩

/-- The line printed by the client's `log(msg)` (line 19). -/
def log (msg : String) : String :=
  "[dashboard] " ++ replaceFirst msg SECRET "[SECRET]"

/-! ## Client state and per-tick environment -/

/-- The script's two mutable variables (lines 25-26). -/
structure ClientState where
  last_status : String
  last_send_time : Int
deriving DecidableEq, Repr

/-- `var last_status = ''; var last_send_time = 0;` -/
def clientInit : ClientState := ⟨"", 0⟩

/-- What the Android environment returns during one iteration of the polling
loop: the device API results read by `check_status`, the clock, and the
outcome of the single `http.postJson` call of that tick (if one is made). -/
structure Env where
  screenOn : Bool
  charging : Bool
  battery : Int
  appName : String
  now : Int
  postOk : Bool
  respBody : String
  errMsg : String
deriving DecidableEq, Repr

/-- `check_status()` (lines 28-45): empty string when the screen is off or no
foreground app name is available, otherwise a status string carrying battery
percentage (with a `+` marker while charging) and the app name. -/
def check_status (e : Env) : String :=
  if !e.screenOn then ""
  else if e.appName = "" then ""
  else if e.charging then "[" ++ toString e.battery ++ "% +] " ++ e.appName
  else "[" ++ toString e.battery ++ "%] " ++ e.appName

/-! ## The push payload (wire format) -/

/-- The JSON object posted to `API_URL` — exactly the five fields of the
inbound presence-push wire format (lines 52-58 and 89-95). -/
structure Payload where
  secret : String
  id : String
  show_name : String
  «using» : Bool
  app_name : String
deriving DecidableEq, Repr

/-- The object literal passed to `http.postJson` in `do_send` (lines 52-58):
`using` is `app_name !== ''`. -/
def mkPayload (app_name : String) : Payload :=
  { secret := SECRET, id := ID, show_name := SHOW_NAME,
    «using» := app_name != "", app_name := app_name }

/-- The object literal posted by the `events.on("exit")` handler
(lines 89-95). -/
def exitPayload : Payload :=
  { secret := SECRET, id := ID, show_name := SHOW_NAME,
    «using» := false, app_name := "" }

/-! ## do_send (lines 47-64) -/

/-- `http.postJson` as a fallible call: returns the response body, or throws
(modelled by `Except.error`) when the environment says the post fails. -/
def http_postJson (e : Env) : Except String String :=
  if e.postOk then .ok e.respBody else .error e.errMsg

/-- The `try` block of `do_send` (lines 51-60): post, log the response, set
`last_send_time = Date.now()`.  An exception from `http_postJson`
propagates. -/
def do_send_try (s : ClientState) (e : Env) :
    Except String (ClientState × List String) := do
  let body ← http_postJson e
  pure ({ s with last_send_time := e.now }, [log ("response: " ++ body)])

/-- `do_send(app_name)` (lines 47-64): logs the POST, attempts exactly one
push of `mkPayload app_name`, and catches any exception from the post,
logging it instead of propagating.  Returns the updated state, the payload
attempted, and the log lines produced. -/
def do_send (s : ClientState) (app_name : String) (e : Env) :
    ClientState × Payload × List String :=
  match do_send_try s e with
  | .ok (s', ls) => (s', mkPayload app_name, log ("POST " ++ API_URL) :: ls)
  | .error err =>
      (s, mkPayload app_name, [log ("POST " ++ API_URL), log ("ERROR: " ++ err)])

/-! ## send_status (lines 66-83) -/

/-- `send_status()` : one tick of the polling loop body.  Sends immediately
on a status change (updating `last_status` first), sends a heartbeat when
the status is unchanged but `now - last_send_time >= HEARTBEAT_INTERVAL`,
and otherwise skips.  Returns the new state, the payload attempted this
tick (if any), and the log lines. -/
def send_status (s : ClientState) (e : Env) :
    ClientState × Option Payload × List String :=
  let app_name := check_status e
  if app_name != s.last_status then
    let r := do_send { s with last_status := app_name } app_name e
    (r.1, some r.2.1, log ("status changed: \x27" ++ app_name ++ "\x27") :: r.2.2)
  else if HEARTBEAT_INTERVAL ≤ e.now - s.last_send_time then
    let r := do_send s app_name e
    (r.1, some r.2.1, log ("heartbeat: \x27" ++ app_name ++ "\x27") :: r.2.2)
  else
    (s, none, [log "same status, waiting for heartbeat"])

/-! ## The polling loop (lines 101-108) -/

/-- The `while (true)` loop run over a finite list of ticks: each tick calls
`send_status` (whose only exception source, `http.postJson`, is already
caught inside `do_send`) and proceeds to the next tick.  Produces one entry
per tick: the environment, the payload attempted (if any), and the logs. -/
def runTrace : ClientState → List Env → List (Env × Option Payload × List String)
  | _, [] => []
  | s, e :: rest =>
      let r := send_status s e
      (e, r.2.1, r.2.2) :: runTrace r.1 rest

/-- The payloads of all pushes attempted along a run of the loop. -/
def pushedPayloads : ClientState → List Env → List Payload
  | _, [] => []
  | s, e :: rest =>
      let r := send_status s e
      match r.2.1 with
      | some p => p :: pushedPayloads r.1 rest
      | none => pushedPayloads r.1 rest

/-- One push attempt as observed on the wire: the status string sent, the
tick's clock, and whether the post succeeded. -/
structure PushEv where
  status : String
  now : Int
  postOk : Bool
deriving DecidableEq, Repr

/-- The sequence of push attempts (with their times and outcomes) along a
run of the polling loop. -/
def pushes : ClientState → List Env → List PushEv
  | _, [] => []
  | s, e :: rest =>
      let r := send_status s e
      match r.2.1 with
      | some _ => ⟨check_status e, e.now, e.postOk⟩ :: pushes r.1 rest
      | none => pushes r.1 rest

/-! ## Basic facts about a single tick -/

/-- `do_send` updates `last_send_time` to the tick's clock exactly when the
post succeeds, never touches `last_status`, and always attempts the payload
`mkPayload app_name`. -/
theorem do_send_spec (s : ClientState) (a : String) (e : Env) :
    (do_send s a e).1.last_send_time =
        (if e.postOk = true then e.now else s.last_send_time) ∧
      (do_send s a e).1.last_status = s.last_status ∧
      (do_send s a e).2.1 = mkPayload a := by
  rcases h : e.postOk with _ | _ <;>
    simp [do_send, do_send_try, http_postJson, h]

/-- A tick that attempts a push leaves `last_status` equal to the status
string of that tick, and records the tick's clock in `last_send_time` when
the post succeeds. -/
theorem send_status_push_state (s : ClientState) (e : Env)
    (h : (send_status s e).2.1.isSome = true) :
    (send_status s e).1.last_status = check_status e ∧
      (e.postOk = true → (send_status s e).1.last_send_time = e.now) ∧
      (e.postOk = false → (send_status s e).1.last_send_time = s.last_send_time) := by
  by_cases hc : check_status e = s.last_status
  · by_cases hh : HEARTBEAT_INTERVAL ≤ e.now - s.last_send_time
    · rcases hp : e.postOk with _ | _ <;>
        simp [send_status, hc, hh, do_send, do_send_try, http_postJson, hp]
    · simp [send_status, hc, hh] at h
  · rcases hp : e.postOk with _ | _ <;>
      simp [send_status, hc, do_send, do_send_try, http_postJson, hp]

/-- A tick that attempts no push leaves the state unchanged, and can only
happen when the status is unchanged and the heartbeat is not yet due. -/
theorem send_status_skip_state (s : ClientState) (e : Env)
    (h : (send_status s e).2.1.isSome = false) :
    (send_status s e).1 = s ∧ check_status e = s.last_status ∧
      ¬ HEARTBEAT_INTERVAL ≤ e.now - s.last_send_time := by
  by_cases hc : check_status e = s.last_status
  · by_cases hh : HEARTBEAT_INTERVAL ≤ e.now - s.last_send_time
    · rcases hp : e.postOk with _ | _ <;>
        simp [send_status, hc, hh, do_send, do_send_try, http_postJson, hp] at h
    · simp [send_status, hc, hh]
  · rcases hp : e.postOk with _ | _ <;>
      simp [send_status, hc, do_send, do_send_try, http_postJson, hp] at h

/-- C1: At every poll tick of the device-push client, `send_status` attempts
exactly one HTTP status push (the single `http.postJson` call inside
`do_send`, recorded here as the `some` payload of the tick) if and only if
the current status string returned by `check_status` differs from the
previously observed status `last_status`, or at least `HEARTBEAT_INTERVAL`
milliseconds have elapsed since the last successful send `last_send_time`;
otherwise no push is attempted on that tick. -/
theorem C1_push_attempt_iff (s : ClientState) (e : Env) :
    (send_status s e).2.1.isSome = true ↔
      (check_status e ≠ s.last_status ∨
        HEARTBEAT_INTERVAL ≤ e.now - s.last_send_time) := by
  by_cases hc : check_status e = s.last_status
  · by_cases hh : HEARTBEAT_INTERVAL ≤ e.now - s.last_send_time
    · rcases hp : e.postOk with _ | _ <;>
        simp [send_status, hc, hh, do_send, do_send_try, http_postJson, hp]
    · simp [send_status, hc, hh]
  · simp [send_status, hc, do_send, do_send_try, http_postJson]

/-! ## Payload shape along any run -/

/-- Every payload pushed along a run of the polling loop is `mkPayload a`
for `a` the status string of its tick. -/
theorem pushedPayloads_eq_mkPayload (s : ClientState) (ts : List Env)
    (p : Payload) (hp : p ∈ pushedPayloads s ts) : ∃ a, p = mkPayload a := by
  induction ts generalizing s with
  | nil => simp [pushedPayloads] at hp
  | cons e rest ih =>
      rw [pushedPayloads] at hp
      rcases hq : (send_status s e).2.1 with _ | q
      · rw [hq] at hp
        exact ih _ hp
      · rw [hq] at hp
        rcases List.mem_cons.mp hp with h | h
        · refine ⟨check_status e, ?_⟩
          have : (send_status s e).2.1 = some (mkPayload (check_status e)) := by
            by_cases hc : check_status e = s.last_status
            · by_cases hh : HEARTBEAT_INTERVAL ≤ e.now - s.last_send_time
              · rcases hpo : e.postOk with _ | _ <;>
                  simp [send_status, hc, hh, do_send, do_send_try, http_postJson, hpo]
              · simp [send_status, hc, hh] at hq
            · rcases hpo : e.postOk with _ | _ <;>
                simp [send_status, hc, do_send, do_send_try, http_postJson, hpo]
          rw [hq] at this
          simpa [h] using this
        · exact ih _ h

/-- C2: Every status push the client sends — both the periodic pushes issued
by `do_send` along any run of the polling loop and the final exit report —
is a JSON object with exactly the five fields `secret`, `id`, `show_name`,
`using` (a boolean, by the `Payload` structure), `app_name`, carrying the
configured `SECRET`, `ID` and `SHOW_NAME`, i.e. it matches the inbound
presence-push wire format `{secret, id, show_name, using, app_name}`
consumed by the Presence Tracker. -/
theorem C2_wire_format (ts : List Env) (p : Payload)
    (hp : p ∈ pushedPayloads clientInit ts ∨ p = exitPayload) :
    p.secret = SECRET ∧ p.id = ID ∧ p.show_name = SHOW_NAME ∧
      p = { secret := SECRET, id := ID, show_name := SHOW_NAME,
            «using» := p.using, app_name := p.app_name } := by
  rcases hp with hp | hp
  · obtain ⟨a, rfl⟩ := pushedPayloads_eq_mkPayload _ _ _ hp
    simp [mkPayload]
  · simp [hp, exitPayload]

/-- C2 witness: the exit report is in wire format. -/
theorem C2_wire_format_witness :
    exitPayload.secret = SECRET ∧ exitPayload.id = ID ∧
      exitPayload.show_name = SHOW_NAME ∧
      exitPayload = { secret := SECRET, id := ID, show_name := SHOW_NAME,
                      «using» := exitPayload.using,
                      app_name := exitPayload.app_name } :=
  C2_wire_format [] exitPayload (Or.inr rfl)

/-- C8: In every push the client sends (periodic or exit report), the
`using` field is `true` if and only if the sent `app_name` field is a
non-empty string; the exit report carries `using = false` with an empty
`app_name`, and so does any push taken on a tick whose screen is off
(since `check_status` returns the empty string then). -/
theorem C8_using_iff_nonempty (ts : List Env) (p : Payload)
    (hp : p ∈ pushedPayloads clientInit ts ∨ p = exitPayload)
    (s : ClientState) (e : Env) :
    (p.using = true ↔ p.app_name ≠ "") ∧
      (exitPayload.using = false ∧ exitPayload.app_name = "") ∧
      (e.screenOn = false →
        ∀ q ∈ (send_status s e).2.1, q.using = false ∧ q.app_name = "") := by
  refine ⟨?_, by simp [exitPayload], ?_⟩
  · rcases hp with hp | hp
    · obtain ⟨a, rfl⟩ := pushedPayloads_eq_mkPayload _ _ _ hp
      by_cases ha : a = "" <;> simp [mkPayload, ha]
    · simp [hp, exitPayload]
  · intro hs q hq
    rcases hqq : (send_status s e).2.1 with _ | q'
    · rw [hqq] at hq; simp at hq
    · rw [hqq] at hq
      have hq' : q' = q := by simpa using hq
      have hcs : check_status e = "" := by simp [check_status, hs]
      have hsome : (send_status s e).2.1 = some (mkPayload "") := by
        by_cases hc : check_status e = s.last_status
        · have hsl : s.last_status = "" := hc.symm.trans hcs
          by_cases hh : HEARTBEAT_INTERVAL ≤ e.now - s.last_send_time
          · rcases hpo : e.postOk with _ | _ <;>
              simp [send_status, hc, hcs, hsl, hh, do_send, do_send_try,
                http_postJson, hpo]
          · simp [send_status, hc, hh] at hqq
        · rw [hcs] at hc
          rcases hpo : e.postOk with _ | _ <;>
            simp [send_status, hc, hcs, do_send, do_send_try, http_postJson, hpo]
      rw [hqq] at hsome
      have hmk : q' = mkPayload "" := by simpa using hsome
      simp [← hq', hmk, mkPayload]

/-- C8 witness: the exit report itself, and a screen-off tick. -/
theorem C8_using_iff_nonempty_witness :
    (exitPayload.using = true ↔ exitPayload.app_name ≠ "") ∧
      (exitPayload.using = false ∧ exitPayload.app_name = "") ∧
      ((⟨false, false, 50, "App", 0, true, "", ""⟩ : Env).screenOn = false →
        ∀ q ∈ (send_status clientInit ⟨false, false, 50, "App", 0, true, "", ""⟩).2.1,
          q.using = false ∧ q.app_name = "") :=
  C8_using_iff_nonempty [] exitPayload (Or.inr rfl) clientInit _

/-! ## Error containment -/

/-- The polling loop processes every tick: one trace entry per tick, no
matter how many posts fail. -/
theorem runTrace_length (s : ClientState) (ts : List Env) :
    (runTrace s ts).length = ts.length := by
  induction ts generalizing s with
  | nil => rfl
  | cons e rest ih => simp [runTrace, ih]

/-- C4: Any exception raised while sending a status push — in this model the
one throwing operation, `http.postJson`, which fails exactly on a tick with
`postOk = false` — is caught by `do_send`'s `catch` and logged as an
`ERROR:` line, after which `do_send` returns normally with the state it was
given; consequently the polling loop processes every tick of any run (one
trace entry per tick), so no push failure terminates the client. -/
theorem C4_failures_contained (s : ClientState) (a : String) (e : Env)
    (ts : List Env) (hfail : e.postOk = false) :
    http_postJson e = .error e.errMsg ∧
      do_send s a e =
        (s, mkPayload a, [log ("POST " ++ API_URL), log ("ERROR: " ++ e.errMsg)]) ∧
      (runTrace s ts).length = ts.length := by
  refine ⟨by simp [http_postJson, hfail], ?_, runTrace_length s ts⟩
  simp [do_send, do_send_try, http_postJson, hfail]

/-- C4 witness: a concrete failing tick inside a two-tick run. -/
theorem C4_failures_contained_witness :
    http_postJson ⟨true, false, 80, "App", 5000, false, "", "net down"⟩ =
        .error "net down" ∧
      do_send clientInit "[80%] App" ⟨true, false, 80, "App", 5000, false, "", "net down"⟩ =
        (clientInit, mkPayload "[80%] App",
          [log ("POST " ++ API_URL), log ("ERROR: " ++ "net down")]) ∧
      (runTrace clientInit
          [⟨true, false, 80, "App", 5000, false, "", "net down"⟩,
           ⟨true, false, 80, "App", 8000, true, "ok", ""⟩]).length = 2 :=
  C4_failures_contained clientInit "[80%] App"
    ⟨true, false, 80, "App", 5000, false, "", "net down"⟩
    [⟨true, false, 80, "App", 5000, false, "", "net down"⟩,
     ⟨true, false, 80, "App", 8000, true, "ok", ""⟩] rfl

/-- C9: `do_send` updates `last_send_time` if and only if the HTTP post
succeeds (it becomes the tick's clock on success and is unchanged when the
post throws); hence if a push whose heartbeat condition held fails, the
condition still holds at any later tick and a send is re-attempted there;
and `last_status` is updated before the attempt whenever the status
changed, regardless of the post's outcome. -/
theorem C9_send_time_update_iff_success (s : ClientState) (e e2 : Env)
    (hfail : e.postOk = false)
    (hhb : HEARTBEAT_INTERVAL ≤ e.now - s.last_send_time)
    (hmono : e.now ≤ e2.now) :
    (∀ s1 a1 e1, (do_send s1 a1 e1).1.last_send_time =
        (if e1.postOk = true then e1.now else s1.last_send_time)) ∧
      ((send_status s e).2.1.isSome = true ∧
        (send_status ((send_status s e).1) e2).2.1.isSome = true) ∧
      (∀ s1 e1, check_status e1 ≠ s1.last_status →
        (send_status s1 e1).1.last_status = check_status e1) := by
  refine ⟨fun s1 a1 e1 => (do_send_spec s1 a1 e1).1, ⟨?_, ?_⟩, fun s1 e1 h => ?_⟩
  · exact (C1_push_attempt_iff s e).mpr (Or.inr hhb)
  · have hatt : (send_status s e).2.1.isSome = true :=
      (C1_push_attempt_iff s e).mpr (Or.inr hhb)
    have hst := send_status_push_state s e hatt
    have hlst : (send_status s e).1.last_send_time = s.last_send_time :=
      hst.2.2 hfail
    refine (C1_push_attempt_iff _ e2).mpr (Or.inr ?_)
    rw [hlst]
    omega
  · have hatt : (send_status s1 e1).2.1.isSome = true :=
      (C1_push_attempt_iff s1 e1).mpr (Or.inl h)
    exact (send_status_push_state s1 e1 hatt).1

/-- C9 witness: a failed heartbeat push at time 12000 is re-attempted at
time 15000. -/
theorem C9_send_time_update_iff_success_witness :
    ((⟨true, false, 80, "App", 12000, false, "", "err"⟩ : Env).postOk = false) ∧
      (HEARTBEAT_INTERVAL ≤
        (⟨true, false, 80, "App", 12000, false, "", "err"⟩ : Env).now -
          ({ last_status := "[80%] App", last_send_time := 1000 } : ClientState).last_send_time) ∧
      ((⟨true, false, 80, "App", 12000, false, "", "err"⟩ : Env).now ≤
        (⟨true, false, 80, "App", 15000, true, "ok", ""⟩ : Env).now) ∧
      ((send_status { last_status := "[80%] App", last_send_time := 1000 }
          ⟨true, false, 80, "App", 12000, false, "", "err"⟩).2.1.isSome = true ∧
        (send_status ((send_status { last_status := "[80%] App", last_send_time := 1000 }
            ⟨true, false, 80, "App", 12000, false, "", "err"⟩).1)
          ⟨true, false, 80, "App", 15000, true, "ok", ""⟩).2.1.isSome = true) :=
  ⟨rfl, by norm_num [HEARTBEAT_INTERVAL], by norm_num,
    (C9_send_time_update_iff_success
      { last_status := "[80%] App", last_send_time := 1000 }
      ⟨true, false, 80, "App", 12000, false, "", "err"⟩
      ⟨true, false, 80, "App", 15000, true, "ok", ""⟩
      rfl (by norm_num [HEARTBEAT_INTERVAL]) (by norm_num)).2.1⟩

/-! ## Heartbeat separation of push attempts -/

/-- Unfolding equation for `pushes` on a cons trace. -/
theorem pushes_cons (s : ClientState) (e : Env) (rest : List Env) :
    pushes s (e :: rest) =
      match (send_status s e).2.1 with
      | some _ => ⟨check_status e, e.now, e.postOk⟩ :: pushes (send_status s e).1 rest
      | none => pushes (send_status s e).1 rest := rfl

/-- The separation property as the claim states it: consecutive push
attempts with equal status strings are at least `HEARTBEAT_INTERVAL` apart. -/
def claimSep (p q : PushEv) : Prop :=
  q.status = p.status → HEARTBEAT_INTERVAL ≤ q.now - p.now

/-- The separation property the code actually guarantees: consecutive push
attempts with equal status strings are at least `HEARTBEAT_INTERVAL` apart
provided the earlier attempt's post succeeded. -/
def heartbeatSep (p q : PushEv) : Prop :=
  p.postOk = true → q.status = p.status → HEARTBEAT_INTERVAL ≤ q.now - p.now

/-- If the first push attempt of a run repeats the state's `last_status`,
it can only be a heartbeat, so it is at least `HEARTBEAT_INTERVAL` after
the state's `last_send_time`. -/
theorem pushes_head_heartbeat (ts : List Env) :
    ∀ s : ClientState, ∀ q ∈ (pushes s ts).head?,
      q.status = s.last_status → HEARTBEAT_INTERVAL ≤ q.now - s.last_send_time := by
  induction ts with
  | nil => intro s q hq; simp [pushes] at hq
  | cons e rest ih =>
      intro s q hq hstat
      rw [pushes_cons] at hq
      rcases hp : (send_status s e).2.1 with _ | p
      · rw [hp] at hq
        have hskip := send_status_skip_state s e (by simp [hp])
        rw [hskip.1] at hq
        exact ih s q hq hstat
      · rw [hp] at hq
        have hq' : q = ⟨check_status e, e.now, e.postOk⟩ := by
          have := hq
          simp at this
          exact this.symm
        have hcs : check_status e = s.last_status := by
          have := hstat
          rw [hq'] at this
          exact this
        have hs : (send_status s e).2.1.isSome = true := by simp [hp]
        rcases (C1_push_attempt_iff s e).mp hs with h | h
        · exact absurd hcs h
        · rw [hq']
          exact h

/-- C3 (amended): in every execution of the client's polling loop, any two
consecutive push attempts whose status strings are equal and whose earlier
attempt's HTTP post succeeded are separated by at least
`HEARTBEAT_INTERVAL` milliseconds; after a failed post the client may
re-attempt the same status sooner. -/
theorem C3_amended_heartbeat_separation (ts : List Env) :
    List.Chain' heartbeatSep (pushes clientInit ts) := by
  suffices h : ∀ s : ClientState, List.Chain' heartbeatSep (pushes s ts) from
    h clientInit
  induction ts with
  | nil => intro s; simp [pushes]
  | cons e rest ih =>
      intro s
      rw [pushes_cons]
      rcases hp : (send_status s e).2.1 with _ | p
      · exact ih _
      · refine List.chain'_cons'.mpr ⟨?_, ih _⟩
        intro q hq hok hstat
        have hs : (send_status s e).2.1.isSome = true := by simp [hp]
        have hst := send_status_push_state s e hs
        have h1 : (send_status s e).1.last_status = check_status e := hst.1
        have h2 : (send_status s e).1.last_send_time = e.now := hst.2.1 hok
        have := pushes_head_heartbeat rest (send_status s e).1 q hq
          (by rw [h1]; exact hstat)
        rw [h2] at this
        exact this

/-- C3 counterexample: a status-change push whose post fails at time 9999 is
followed by a heartbeat re-attempt of the same status string at time 12999,
only `3000 ms < HEARTBEAT_INTERVAL` later, so the claim as stated (equal
consecutive attempts always at least `HEARTBEAT_INTERVAL` apart) is false. -/
theorem C3_counterexample :
    ¬ List.Chain' claimSep (pushes clientInit
      [⟨true, false, 50, "A", 9999, false, "", "netfail"⟩,
       ⟨true, false, 50, "A", 12999, true, "ok", ""⟩]) := by
  intro h
  have hps : pushes clientInit
      [⟨true, false, 50, "A", 9999, false, "", "netfail"⟩,
       ⟨true, false, 50, "A", 12999, true, "ok", ""⟩] =
      [⟨"[50%] A", 9999, false⟩, ⟨"[50%] A", 12999, true⟩] := by rfl
  rw [hps] at h
  have hrel := (List.chain'_cons.mp h).1 rfl
  norm_num [HEARTBEAT_INTERVAL] at hrel

/-! ## Task Store mark_fired (modelled from the spec) -/

/-- Result of `mark_fired` (spec §4.2 / §7). -/
inductive MarkFiredResult
  | success
  | notFound
  | alreadyFired
deriving DecidableEq, Repr

/-- Modelled from the spec: the Task Store's last-fired bookkeeping
(`backend/local_todo.py` is not among the sources).  A store maps each task
id to its `last_fired_occurrence`; task ids and occurrence identities are
opaque values, embedded as `Nat`. -/
abbrev TaskStore := List (Nat × Option Nat)

/-- Modelled from the spec: `mark_fired(task_id, occurrence_identity) ->
success | NotFound | AlreadyFired` (spec §4.2).  Unknown task: `NotFound`;
occurrence equal to `last_fired_occurrence`: `AlreadyFired`, store
unchanged; otherwise record the occurrence and report `success`. -/
def mark_fired (st : TaskStore) (task_id occ : Nat) :
    MarkFiredResult × TaskStore :=
  match st.lookup task_id with
  | none => (.notFound, st)
  | some lf =>
      if lf = some occ then (.alreadyFired, st)
      else (.success,
        st.map fun p => if p.1 = task_id then (p.1, some occ) else p)

/-- Modelled from the spec: the Scheduler emits a Fire Event exactly when
its `mark_fired` call succeeds (spec §4.3).  Runs a list of
`(task_id, occurrence)` calls through the store and collects the emitted
fire events. -/
def runMarkFired (st : TaskStore) : List (Nat × Nat) → List (Nat × Nat)
  | [] => []
  | (tid, occ) :: calls =>
      let r := mark_fired st tid occ
      if r.1 = .success then (tid, occ) :: runMarkFired r.2 calls
      else runMarkFired r.2 calls

/-- Updating a present key makes later lookups see the new occurrence. -/
theorem lookup_map_set (task_id occ : Nat) :
    ∀ (st : TaskStore) (lf : Option Nat), st.lookup task_id = some lf →
      (st.map fun p => if p.1 = task_id then (p.1, some occ) else p).lookup task_id
        = some (some occ) := by
  intro st
  induction st with
  | nil => intro lf h; simp [List.lookup] at h
  | cons p rest ih =>
      intro lf h
      rcases p with ⟨k, v⟩
      by_cases hk : k = task_id
      · subst hk
        simp [List.lookup_cons]
      · have hne : (task_id == k) = false := by simp [Ne.symm hk]
        rw [List.lookup_cons, hne] at h
        rw [List.map_cons]
        simp only [if_neg hk]
        rw [List.lookup_cons, hne]
        exact ih lf h

/-- After a successful `mark_fired`, the store records the occurrence. -/
theorem lookup_after_mark_fired (st : TaskStore) (task_id occ : Nat)
    (h : (mark_fired st task_id occ).1 = .success) :
    ((mark_fired st task_id occ).2).lookup task_id = some (some occ) := by
  rcases hl : st.lookup task_id with _ | lf
  · simp [mark_fired, hl] at h
  · by_cases he : lf = some occ
    · simp [mark_fired, hl, he] at h
    · simp only [mark_fired, hl, if_neg he]
      exact lookup_map_set task_id occ st lf hl

/-- Once the store already records the occurrence, repeated identical calls
stay `alreadyFired` and emit no fire event. -/
theorem runMarkFired_already_fired (task_id occ : Nat) :
    ∀ (n : Nat) (st : TaskStore), st.lookup task_id = some (some occ) →
      runMarkFired st (List.replicate n (task_id, occ)) = [] := by
  intro n
  induction n with
  | zero => intro st _; rfl
  | succ n ih =>
      intro st h
      rw [List.replicate_succ, runMarkFired]
      have hmf : mark_fired st task_id occ = (.alreadyFired, st) := by
        simp [mark_fired, h]
      rw [hmf]
      simpa using ih st h

/-- C5: calling `mark_fired(task_id, X)` twice for the same occurrence `X`
succeeds the first time and returns `AlreadyFired` the second time, and in
the run of any number of repeated `mark_fired(task_id, X)` calls — the
scheduler emitting a Fire Event exactly on `success` — at most one Fire
Event is ever emitted for the `(task_id, X)` pair. -/
theorem C5_mark_fired_idempotent (st : TaskStore) (task_id occ : Nat)
    (h : (mark_fired st task_id occ).1 = .success) (n : Nat) :
    (mark_fired ((mark_fired st task_id occ).2) task_id occ).1 = .alreadyFired ∧
      (runMarkFired st (List.replicate n (task_id, occ))).length ≤ 1 := by
  constructor
  · have hl := lookup_after_mark_fired st task_id occ h
    generalize hg : (mark_fired st task_id occ).2 = st2 at hl ⊢
    simp [mark_fired, hl]
  · rcases n with _ | n
    · simp [runMarkFired]
    · rw [List.replicate_succ, runMarkFired, if_pos (by simpa using h)]
      rw [runMarkFired_already_fired task_id occ n _
        (lookup_after_mark_fired st task_id occ h)]
      simp

/-- C5 witness: a one-task store where occurrence `7` has not fired yet. -/
theorem C5_mark_fired_idempotent_witness :
    (mark_fired ((mark_fired [(1, none)] 1 7).2) 1 7).1 = .alreadyFired ∧
      (runMarkFired [(1, none)] (List.replicate 3 (1, 7))).length ≤ 1 :=
  C5_mark_fired_idempotent [(1, none)] 1 7 (by decide) 3

/-! ## Monthly recurrence skip (modelled from the spec) -/

/-- Modelled from the spec: Gregorian leap-year rule, needed for February's
length (the Recurrence Evaluator in `backend/local_todo.py` is not among
the sources). -/
def isLeapYear (y : Nat) : Bool :=
  (y % 4 == 0 && y % 100 != 0) || y % 400 == 0

/-- Modelled from the spec: number of days in month `m` of year `y`
(February has 28 or 29 days, spec §8 "Monthly skip"). -/
def daysInMonth (y m : Nat) : Nat :=
  if m = 2 then (if isLeapYear y then 29 else 28)
  else if m = 4 ∨ m = 6 ∨ m = 9 ∨ m = 11 then 30
  else 31

/-- Modelled from the spec: whether a `Monthly{days, hour}` rule has an
occurrence on calendar day `(y, m, d)` — the day must be listed and must
exist in that month; a listed day with no calendar equivalent is skipped,
not clamped (spec §3). -/
def monthlyOccursOn (days : List Nat) (y m d : Nat) : Bool :=
  days.contains d && decide (1 ≤ d) && decide (d ≤ daysInMonth y m)

/-- February never has more than 29 days. -/
theorem daysInMonth_feb_le (y : Nat) : daysInMonth y 2 ≤ 29 := by
  rcases h : isLeapYear y with _ | _ <;> simp [daysInMonth, h]

/-- C6: for every Monthly recurrence rule, a listed day-of-month with no
calendar equivalent in a given month produces no occurrence in that month
(skipped, not clamped); in particular `Monthly{days:[31]}` produces no
occurrence in February of any year. -/
theorem C6_monthly_skip (days : List Nat) (y m d : Nat)
    (h : daysInMonth y m < d) :
    monthlyOccursOn days y m d = false ∧
      ∀ y' d', monthlyOccursOn [31] y' 2 d' = false := by
  constructor
  · simp [monthlyOccursOn]
    intro _ _
    omega
  · intro y' d'
    simp [monthlyOccursOn]
    intro hd _
    subst hd
    have := daysInMonth_feb_le y'
    omega

/-- C6 witness: day 31 in February 2025 (28 days). -/
theorem C6_monthly_skip_witness :
    daysInMonth 2025 2 < 31 ∧ monthlyOccursOn [31] 2025 2 31 = false :=
  ⟨by decide, (C6_monthly_skip [31] 2025 2 31 (by decide)).1⟩

/-! ## Presence timeout (modelled from the spec) -/

/-- Modelled from the spec: the Presence Tracker's online/offline derivation
(`backend/mobile_device.py` is not among the sources).  A tracked device is
reported Online while `now - last_seen ≤ timeout_seconds` and Offline once
`now - last_seen > timeout_seconds` (spec §4.5). -/
def presenceOnline (now last_seen timeout_seconds : Int) : Bool :=
  decide (now - last_seen ≤ timeout_seconds)

/-- C7: a tracked device is reported Offline exactly when `now - last_seen`
strictly exceeds `timeout_seconds`; in particular
`last_seen = now - timeout_seconds - 1` is reported Offline and
`last_seen = now - timeout_seconds + 1` is reported Online. -/
theorem C7_presence_timeout (now last_seen timeout_seconds : Int) :
    (presenceOnline now last_seen timeout_seconds = false ↔
        now - last_seen > timeout_seconds) ∧
      presenceOnline now (now - timeout_seconds - 1) timeout_seconds = false ∧
      presenceOnline now (now - timeout_seconds + 1) timeout_seconds = true := by
  refine ⟨?_, ?_, ?_⟩ <;> simp [presenceOnline] <;> omega

/-! ## Secret redaction in log output

JS `String.replace` with a string pattern replaces only the first
occurrence, so `log` redacts only the first occurrence of `SECRET`.  The
lemmas below count pattern occurrences and locate the splice performed by
`replaceFirstAux`. -/

/-- Number of positions of `l` at which `pat` matches (overlaps counted). -/
def occCount (pat : List Char) : List Char → Nat
  | [] => 0
  | c :: rest => (if pat.isPrefixOf (c :: rest) then 1 else 0) + occCount pat rest

/-- Occurrence counting is superadditive under append. -/
theorem occCount_append_le (pat a b : List Char) :
    occCount pat a + occCount pat b ≤ occCount pat (a ++ b) := by
  induction a with
  | nil => simp [occCount]
  | cons c a' ih =>
      rw [List.cons_append, occCount, occCount]
      have hif : (if pat.isPrefixOf (c :: a') then 1 else 0) ≤
          (if pat.isPrefixOf (c :: (a' ++ b)) then 1 else 0) := by
        by_cases h : pat.isPrefixOf (c :: a') = true
        · have h2 : pat.isPrefixOf (c :: (a' ++ b)) = true := by
            rw [List.isPrefixOf_iff_prefix] at h ⊢
            rw [← List.cons_append]
            exact h.trans (List.prefix_append _ _)
          simp [h, h2]
        · simp [h]
      calc (if pat.isPrefixOf (c :: a') then 1 else 0) + occCount pat a' +
              occCount pat b
          ≤ (if pat.isPrefixOf (c :: a') then 1 else 0) +
              occCount pat (a' ++ b) := by
            rw [Nat.add_assoc]
            exact Nat.add_le_add_left ih _
        _ ≤ (if pat.isPrefixOf (c :: (a' ++ b)) then 1 else 0) +
              occCount pat (a' ++ b) := Nat.add_le_add_right hif _

/-- An infix occurrence forces a positive occurrence count. -/
theorem occCount_pos_of_infix (pat : List Char) (hne : pat ≠ []) :
    ∀ l : List Char, pat <:+: l → 0 < occCount pat l := by
  intro l
  induction l with
  | nil => intro h; exact absurd (by simpa using h) hne
  | cons c rest ih =>
      intro h
      rcases List.infix_cons_iff.mp h with h1 | h1
      · rw [occCount, if_pos (List.isPrefixOf_iff_prefix.mpr h1)]
        omega
      · have := ih h1
        rw [occCount]
        omega

/-- With no occurrence of the pattern, `replaceFirstAux` is the identity. -/
theorem replaceFirstAux_of_occCount_zero (pat repl : List Char) :
    ∀ l : List Char, occCount pat l = 0 → replaceFirstAux pat repl l = l := by
  intro l
  induction l with
  | nil => intro _; rfl
  | cons c rest ih =>
      intro h
      rw [occCount] at h
      have h1 : ¬ pat.isPrefixOf (c :: rest) = true := by
        intro hp
        rw [if_pos hp] at h
        omega
      rw [replaceFirstAux, if_neg h1]
      have h2 : occCount pat rest = 0 := by
        rw [if_neg h1] at h
        omega
      rw [ih h2]

/-- With at least one occurrence, `replaceFirstAux` splices the replacement
in place of the first occurrence. -/
theorem replaceFirstAux_structure (pat repl : List Char) :
    ∀ l : List Char, 0 < occCount pat l →
      ∃ p q, l = (p ++ pat) ++ q ∧
        replaceFirstAux pat repl l = (p ++ repl) ++ q := by
  intro l
  induction l with
  | nil => intro h; simp [occCount] at h
  | cons c rest ih =>
      intro h
      by_cases hp : pat.isPrefixOf (c :: rest) = true
      · obtain ⟨q, hq⟩ := List.isPrefixOf_iff_prefix.mp hp
        refine ⟨[], q, by simpa using hq.symm, ?_⟩
        rw [replaceFirstAux, if_pos hp, ← hq, List.drop_left]
        simp
      · rw [occCount, if_neg hp] at h
        obtain ⟨p, q, hl, hout⟩ := ih (by omega)
        refine ⟨c :: p, q, by simp [hl], ?_⟩
        rw [replaceFirstAux, if_neg hp, hout]
        simp

/-- An infix of an append is an infix of a part, or splits across the
boundary into a non-empty suffix of the left part and a non-empty prefix
of the right part. -/
theorem infix_append_split {α : Type} {l xs ys : List α}
    (h : l <:+: xs ++ ys) :
    l <:+: xs ∨ l <:+: ys ∨
      ∃ s t, l = s ++ t ∧ s ≠ [] ∧ t ≠ [] ∧ s <:+ xs ∧ t <+: ys := by
  obtain ⟨u, v, huv⟩ := h
  rw [List.append_assoc] at huv
  rcases List.append_eq_append_iff.mp huv with ⟨a, ha1, ha2⟩ | ⟨c, hc1, hc2⟩
  · rcases List.append_eq_append_iff.mp ha2 with ⟨b, hb1, hb2⟩ | ⟨d, hd1, hd2⟩
    · left
      refine ⟨u, b, ?_⟩
      rw [ha1, hb1, List.append_assoc]
    · by_cases haa : a = []
      · right; left
        subst haa
        simp only [List.nil_append] at hd1
        exact ⟨[], v, by rw [hd2, hd1, List.nil_append]⟩
      · by_cases hdd : d = []
        · left
          subst hdd
          rw [List.append_nil] at hd1
          exact ⟨u, [], by rw [ha1, hd1, List.append_nil]⟩
        · right; right
          exact ⟨a, d, hd1, haa, hdd, ⟨u, ha1.symm⟩, ⟨v, hd2.symm⟩⟩
  · right; left
    exact ⟨c, v, by rw [hc2, List.append_assoc]⟩

/-- The secret cannot occur across or inside the `"[dashboard] "` prefix:
it is longer than the prefix, starts with a character the prefix does not
contain, and by hypothesis does not occur in the rest. -/
theorem no_secret_after_header (x : List Char)
    (hx : occCount SECRET.data x = 0) :
    ¬ SECRET.data <:+: ("[dashboard] ".data ++ x) := by
  intro hinf
  rcases infix_append_split hinf with h | h | ⟨s, t, hst, hs0, _, hs, _⟩
  · have hle := h.length_le
    have h1 : SECRET.data.length = 43 := by decide
    have h2 : ("[dashboard] ".data).length = 12 := by decide
    omega
  · have := occCount_pos_of_infix SECRET.data (by decide) x h
    omega
  · have h1 : SECRET.data.head? = s.head? := by
      rcases s with _ | ⟨c, s'⟩
      · exact absurd rfl hs0
      · rw [hst]; rfl
    have h2 : s.head? = some 'e' := by
      rw [← h1]; decide
    have h3 : 'e' ∈ s := List.mem_of_mem_head? (by simp [h2])
    have h4 : 'e' ∈ "[dashboard] ".data := hs.subset h3
    exact absurd h4 (by decide)

/-- The secret cannot occur across or inside the spliced `"[SECRET]"`
placeholder: it is longer than the placeholder, starts with a character
(lowercase `e`) the placeholder does not contain, and by hypothesis does
not occur in the rest. -/
theorem no_secret_after_repl (x : List Char)
    (hx : occCount SECRET.data x = 0) :
    ¬ SECRET.data <:+: ("[SECRET]".data ++ x) := by
  intro hinf
  rcases infix_append_split hinf with h | h | ⟨s, t, hst, hs0, _, hs, _⟩
  · have hle := h.length_le
    have h1 : SECRET.data.length = 43 := by decide
    have h2 : ("[SECRET]".data).length = 8 := by decide
    omega
  · have := occCount_pos_of_infix SECRET.data (by decide) x h
    omega
  · have h1 : SECRET.data.head? = s.head? := by
      rcases s with _ | ⟨c, s'⟩
      · exact absurd rfl hs0
      · rw [hst]; rfl
    have h2 : s.head? = some 'e' := by
      rw [← h1]; decide
    have h3 : 'e' ∈ s := List.mem_of_mem_head? (by simp [h2])
    have h4 : 'e' ∈ "[SECRET]".data := hs.subset h3
    exact absurd h4 (by decide)

/-- C10 counterexample: `log` on a message containing the secret twice
(e.g. the secret concatenated with itself) replaces only the first
occurrence — JS `String.replace` with a string pattern is replace-first —
so the raw secret still appears in the printed log line, refuting the
claim that it never appears for every message that contains it. -/
theorem C10_counterexample :
    SECRET.data <:+: (log (SECRET ++ SECRET)).data :=
  ⟨"[dashboard] [SECRET]".data, [], by rfl⟩

/-- C10 (amended): every message printed through the client's `log`
function has its first occurrence of the device secret replaced by the
placeholder `[SECRET]`, so for every message in which the secret occurs at
most once the raw secret value does not appear in the log output; a
message containing the secret more than once retains the later
occurrences. -/
theorem C10_amended_first_occurrence_redacted (msg : String)
    (h : occCount SECRET.data msg.data ≤ 1) :
    ¬ SECRET.data <:+: (log msg).data := by
  have hdata : (log msg).data =
      "[dashboard] ".data ++
        replaceFirstAux SECRET.data "[SECRET]".data msg.data := by
    simp [log, replaceFirst, String.data_append]
  rcases Nat.eq_zero_or_pos (occCount SECRET.data msg.data) with h0 | hpos
  · rw [hdata, replaceFirstAux_of_occCount_zero _ _ _ h0]
    exact no_secret_after_header _ h0
  · have h1 : occCount SECRET.data msg.data = 1 := Nat.le_antisymm h hpos
    obtain ⟨p, q, hl, hout⟩ :=
      replaceFirstAux_structure SECRET.data "[SECRET]".data _ hpos
    have hsplit : occCount SECRET.data p = 0 ∧ occCount SECRET.data q = 0 := by
      have ha : occCount SECRET.data p +
          occCount SECRET.data (SECRET.data ++ q) ≤
          occCount SECRET.data msg.data := by
        rw [hl, List.append_assoc]
        exact occCount_append_le _ _ _
      have hb : occCount SECRET.data SECRET.data + occCount SECRET.data q ≤
          occCount SECRET.data (SECRET.data ++ q) :=
        occCount_append_le _ _ _
      have hc : 0 < occCount SECRET.data SECRET.data :=
        occCount_pos_of_infix _ (by decide) _ (List.infix_refl _)
      omega
    rw [hdata, hout]
    have hassoc : "[dashboard] ".data ++ ((p ++ "[SECRET]".data) ++ q) =
        ("[dashboard] ".data ++ p) ++ ("[SECRET]".data ++ q) := by
      simp [List.append_assoc]
    rw [hassoc]
    intro hinf
    rcases infix_append_split hinf with hcase | hcase |
      ⟨s, t, hst, _, ht0, _, ht⟩
    · exact no_secret_after_header p hsplit.1 hcase
    · exact no_secret_after_repl q hsplit.2 hcase
    · have h1 : t.head? = ("[SECRET]".data ++ q).head? := by
        obtain ⟨r, hr⟩ := ht
        rcases t with _ | ⟨c, t'⟩
        · exact absurd rfl ht0
        · rw [← hr]; rfl
      have h2 : t.head? = some '[' := by rw [h1]; rfl
      have h3 : '[' ∈ t := List.mem_of_mem_head? (by simp [h2])
      have h4 : '[' ∈ SECRET.data := by
        rw [hst]
        exact List.mem_append_right _ h3
      exact absurd h4 (by decide)

/-- C10 amended witness: a message containing the secret exactly once is
fully redacted. -/
theorem C10_amended_first_occurrence_redacted_witness :
    occCount SECRET.data ("token=" ++ SECRET).data ≤ 1 ∧
      ¬ SECRET.data <:+: (log ("token=" ++ SECRET)).data :=
  ⟨by decide, C10_amended_first_occurrence_redacted _ (by decide)⟩
